import Mathlib

/-!
Verification of the OpenAdapt persistence layer excerpt:
`openadapt/db/crud.py` (stop-sequence trimming, `_insert` batching),
the two Alembic migration scripts, and the recordings REST facade.
Python lists, dicts and negative indexing are modelled explicitly;
a Python `IndexError` is modelled as `Option.none`.
-/

namespace OpenAdapt

/-- A recorded keyboard action event: `name` is "press" or "release";
`canonical_key_char` and `canonical_key_name` model the (possibly `None`)
canonical key attributes of the ORM `ActionEvent` rows consumed by
`filter_stop_sequences` in `openadapt/db/crud.py`. -/
structure ActionEvent where
  name : String
  canonical_key_char : Option String
  canonical_key_name : Option String
deriving DecidableEq, Repr

/-- Python list indexing `l[i]`: non-negative indices from the front,
negative indices from the back, `none` on `IndexError`. -/
def pyIndex (l : List α) (i : Int) : Option α :=
  if 0 ≤ i then l.get? i.toNat
  else if 0 ≤ (l.length : Int) + i then l.get? ((l.length : Int) + i).toNat
  else none

/-- Python membership `o in seq` where `o` is an optional string
(`None in seq` is false for a list of strings). -/
def optMem (o : Option String) (seq : List String) : Bool :=
  match o with
  | some c => seq.contains c
  | none => false

/-- The press-match condition of the inner loop of `filter_stop_sequences`
(crud.py lines 327-332): the event's canonical key char or canonical key
name equals `target` (the sequence element at the current index) and the
event is a press. -/
def matchesAt (e : ActionEvent) (target : String) : Bool :=
  (e.canonical_key_char == some target || e.canonical_key_name == some target)
    && e.name == "press"

/-- The release-consumption condition of the inner loop of
`filter_stop_sequences` (crud.py lines 336-339): a release event whose
canonical key char or canonical key name appears anywhere in `seq`. -/
def consumableRelease (e : ActionEvent) (seq : List String) : Bool :=
  e.name == "release"
    && (optMem e.canonical_key_char seq || optMem e.canonical_key_name seq)

/-- The inner loop of `filter_stop_sequences` (crud.py lines 324-345) for one
candidate sequence `seq`: the events are traversed backwards (the argument
list is the reversed event list), `idx` is `stop_sequence_indices[i]` and
`num` is the running `num_to_remove`.  `seq[idx]` is evaluated (Python
indexing) before anything else in the loop body, so an out-of-range `idx`
raises `IndexError` (`none`) regardless of the event. -/
def scanSeq (seq : List String) : List ActionEvent → Int → Nat → Option (Int × Nat)
  | [], idx, num => some (idx, num)
  | e :: rest, idx, num =>
    match pyIndex seq idx with
    | none => none
    | some target =>
      if matchesAt e target then
        scanSeq seq rest (idx - 1) (num + 1)
      else if consumableRelease e seq then
        scanSeq seq rest idx (num + 1)
      else
        some (idx, num)

/-- One candidate's backward scan over the event list, starting (as in
crud.py line 315) from index `len(sequence) - 1`. -/
def scanOf (seq : List String) (events : List ActionEvent) (num : Nat) :
    Option (Int × Nat) :=
  scanSeq seq events.reverse ((seq.length : Int) - 1) num

/-- Instrument for one candidate's backward scan: whether the match index
(`stop_sequence_indices[i]`) is `-1` at any point of the scan — at entry,
after any step, or at normal exit.  The steps mirror `scanSeq`; when the
index is never `-1` the scan can neither complete (crud.py line 347) nor
wrap around Python-style past the front of the candidate sequence. -/
def scanHitsNeg1 (seq : List String) : List ActionEvent → Int → Bool
  | [], idx => idx == -1
  | e :: rest, idx =>
    idx == -1 ||
      (match pyIndex seq idx with
       | none => false
       | some target =>
         if matchesAt e target then scanHitsNeg1 seq rest (idx - 1)
         else if consumableRelease e seq then scanHitsNeg1 seq rest idx
         else false)

/-- The outer loop of `filter_stop_sequences` (crud.py lines 322-351):
candidates are scanned in configuration order, `num_to_remove` is threaded
through (it is never reset between candidates), and the loop stops at the
first candidate whose final index is `-1`.  Returns the selected candidate
position (or `none` if no candidate completed) with the final
`num_to_remove`; an `IndexError` in a scan aborts the whole call. -/
def outerScan (events : List ActionEvent) :
    List (List String) → Nat → Option (Option Nat × Nat)
  | [], num => some (none, num)
  | seq :: rest, num =>
    match scanOf seq events num with
    | none => none
    | some (idx, num2) =>
      if idx = -1 then some (some 0, num2)
      else (outerScan events rest num2).map (fun r => (r.1.map Nat.succ, r.2))

/-- Python `list.pop()`: removes the last element, `IndexError` on an empty
list. -/
def pop1 (l : List α) : Option (List α) :=
  if l.isEmpty then none else some l.dropLast

/-- `n` successive `list.pop()` calls (crud.py lines 355-356). -/
def popN : Nat → List α → Option (List α)
  | 0, l => some l
  | n + 1, l => (pop1 l).bind (popN n)

/-- The hard-coded Ctrl+C tail check of `filter_stop_sequences`
(crud.py lines 301-305): at least two events, the last one's canonical key
char is "c" and the second-to-last one's canonical key name is "ctrl". -/
def isCtrlC (events : List ActionEvent) : Bool :=
  if 2 ≤ events.length then
    match pyIndex events (-1), pyIndex events (-2) with
    | some e1, some e2 =>
      e1.canonical_key_char == some "c" && e2.canonical_key_name == some "ctrl"
    | _, _ => false
  else false

/-- `filter_stop_sequences` (crud.py lines 290-356), parameterised by the
configured `STOP_SEQUENCES`.  The Python function mutates the list in
place; here the resulting list is returned, with `none` for a raised
`IndexError`.  The Ctrl+C branch pops twice and returns; otherwise the
outer scan runs and, when a candidate completed, `num_to_remove` events
are popped from the tail. -/
def filter_stop_sequences (stopSequences : List (List String))
    (events : List ActionEvent) : Option (List ActionEvent) :=
  if isCtrlC events then popN 2 events
  else
    match outerScan events stopSequences 0 with
    | none => none
    | some (none, _) => some events
    | some (some _, num) => popN num events

/-- The row dict built by `_insert` (crud.py lines 52-57): one entry per
table column, holding the event-data value for that key when present and
`None` otherwise.  `data` models the `event_data` dict as an association
list with distinct keys. -/
def mkRow (columns : List String) (data : List (String × V)) :
    List (String × Option V) :=
  columns.map (fun c => (c, data.lookup c))

/-- The `event_data` entries left after the deletion loop of `_insert`
(crud.py lines 53-57): exactly the entries whose key is not a column
name. -/
def leftover (columns : List String) (data : List (String × V)) :
    List (String × V) :=
  data.filter (fun kv => !(columns.contains kv.1))

/-- Whether `assert not event_data` (crud.py line 60) fires: some event-data
key is not a column name. -/
def assertFires (columns : List String) (data : List (String × V)) : Bool :=
  !(leftover columns data).isEmpty

/-- crud.py line 25. -/
def BATCH_SIZE : Nat := 1

/-- `_insert` (crud.py lines 35-72) acting on explicit database state:
`committed` is the list of rows already executed and committed, `buffer`
the optional module-level buffer list.  Returns the new
`(committed, buffer)` state, or `none` when the assertion raises.  With a
buffer, the row is appended and, when the buffer has reached `BATCH_SIZE`,
the whole buffer is executed, committed and cleared. -/
def _insert (columns : List String) (data : List (String × V))
    (committed : List (List (String × Option V)))
    (buffer : Option (List (List (String × Option V)))) :
    Option (List (List (String × Option V)) ×
      Option (List (List (String × Option V)))) :=
  let db_obj := mkRow columns data
  if assertFires columns data then none
  else
    match buffer with
    | some buf =>
      let buf1 := buf ++ [db_obj]
      if BATCH_SIZE ≤ buf1.length then some (committed ++ buf1, some [])
      else some (committed, some buf1)
    | none => some (committed ++ [db_obj], none)

/-- A schema column as created by the migration scripts: a name, a type
name and nullability. -/
structure Column where
  name : String
  ctype : String
  nullable : Bool
deriving DecidableEq, Repr

/-- A relational schema: tables given by name with their column lists. -/
abbrev Schema := List (String × List Column)

/-- Alembic `batch_op.add_column` on the batch-altered table `tbl`. -/
def add_column (s : Schema) (tbl : String) (col : Column) : Schema :=
  s.map (fun t => if t.1 = tbl then (t.1, t.2 ++ [col]) else t)

/-- Alembic `batch_op.drop_column` on the batch-altered table `tbl`. -/
def drop_column (s : Schema) (tbl : String) (colName : String) : Schema :=
  s.map (fun t =>
    if t.1 = tbl then (t.1, t.2.filter (fun c => c.name != colName)) else t)

/-- `upgrade` of revision 57d78d23087a: add nullable JSON column `state` to
table `window_event`. -/
def upgrade_57d78d23087a (s : Schema) : Schema :=
  add_column s "window_event" ⟨"state", "JSON", true⟩

/-- `downgrade` of revision 57d78d23087a: drop column `state` from table
`window_event`. -/
def downgrade_57d78d23087a (s : Schema) : Schema :=
  drop_column s "window_event" "state"

/-- `upgrade` of revision 8495f5471e23: add nullable JSON column `config` to
table `recording`. -/
def upgrade_8495f5471e23 (s : Schema) : Schema :=
  add_column s "recording" ⟨"config", "JSON", true⟩

/-- `downgrade` of revision 8495f5471e23: drop column `config` from table
`recording`. -/
def downgrade_8495f5471e23 (s : Schema) : Schema :=
  drop_column s "recording" "config"

/-- A recording row, as far as `scrub_recording` looks at it. -/
structure RecordingR where
  id : Int
  task_description : String
deriving DecidableEq, Repr

/-- `get_recording_by_id` (crud.py lines 231-237):
`db.query(Recording).filter_by(id=recording_id).first()` over the stored
recordings. -/
def get_recording_by_id (recs : List RecordingR) (recording_id : Int) :
    Option RecordingR :=
  recs.find? (fun r => r.id == recording_id)

/-- The fetch portion of `scrub_recording` (crud.py lines 532-547): after
the `SCRUB_ENABLED` guard, the recording to scrub is fetched by
`get_recording_by_id(2)` (crud.py line 544); the `recording_id` parameter
is only ever interpolated into log messages, so it is modelled with an
arbitrary type.  Returns the recording that the rest of the function
scrubs, `none` when scrubbing is disabled or no recording is found. -/
def scrub_recording_target (scrub_enabled : Bool) (recs : List RecordingR)
    (recording_id : α) : Option RecordingR :=
  if scrub_enabled then get_recording_by_id recs 2 else none

/-- `RecordingsAPI.scrub_recording` (recordings.py lines 48-56): the route
looks up its own `recording_id`, returns early when it is absent, and
otherwise forwards the fetched recording object to
`crud.scrub_recording`. -/
def api_scrub_recording (scrub_enabled : Bool) (recs : List RecordingR)
    (recording_id : Int) : Option RecordingR :=
  match get_recording_by_id recs recording_id with
  | none => none
  | some r => scrub_recording_target scrub_enabled recs r

/-- Helper: in an association list with distinct keys, `lookup` finds the
value of any member. -/
theorem lookup_of_mem_nodup {V : Type} (data : List (String × V))
    (kv : String × V) (hnd : (data.map Prod.fst).Nodup) (hmem : kv ∈ data) :
    data.lookup kv.1 = some kv.2 := by
  induction data with
  | nil => cases hmem
  | cons head rest ih =>
    obtain ⟨k, v⟩ := head
    rw [List.map_cons, List.nodup_cons] at hnd
    rcases List.mem_cons.mp hmem with heq | hmem'
    · subst heq
      simp [List.lookup_cons]
    · have hk : (kv.1 == k) = false := by
        rw [beq_eq_false_iff_ne]
        intro hkk
        have hm : kv.1 ∈ rest.map Prod.fst := List.mem_map_of_mem Prod.fst hmem'
        rw [hkk] at hm
        exact hnd.1 hm
      rw [List.lookup_cons]
      simp only [hk]
      exact ih hnd.2 hmem'

/-- Helper: `lookup` misses any key absent from the key list. -/
theorem lookup_eq_none_of_not_mem {V : Type} (data : List (String × V))
    (c : String) (hc : c ∉ data.map Prod.fst) : data.lookup c = none := by
  induction data with
  | nil => rfl
  | cons head rest ih =>
    obtain ⟨k, v⟩ := head
    rw [List.map_cons] at hc
    have hck : (c == k) = false := by
      rw [beq_eq_false_iff_ne]
      intro h
      exact hc (h ▸ List.mem_cons_self _ _)
    rw [List.lookup_cons]
    simp only [hck]
    exact ih (fun h => hc (List.mem_cons_of_mem _ h))

/-- Claim C7: with `BATCH_SIZE = 1`, every `_insert` call on a non-`None`
buffer (the shape used by all `insert_*` wrappers) appends the row,
executes and commits the whole buffer at once, and leaves the buffer
empty; no row is ever deferred to a later call. -/
theorem C7_insert_flushes_buffer {V : Type} (columns : List String)
    (data : List (String × V))
    (committed buffer : List (List (String × Option V)))
    (h : assertFires columns data = false) :
    _insert columns data committed (some buffer) =
      some (committed ++ (buffer ++ [mkRow columns data]), some []) := by
  rw [_insert]
  simp only [h, if_false, Bool.false_eq_true]
  rw [if_pos]
  simp [BATCH_SIZE]

/-- Witness for C7 at a concrete table, row and buffer state. -/
theorem C7_insert_flushes_buffer_witness :
    _insert ["a", "b"] [("a", "x")] ([] : List (List (String × Option String)))
        (some []) = some ([] ++ ([] ++ [mkRow ["a", "b"] [("a", "x")]]), some []) :=
  C7_insert_flushes_buffer ["a", "b"] [("a", "x")] [] [] (by decide)

/-- Helper: dropping the freshly added column restores the schema, provided
the column name was not already used in the altered table. -/
theorem drop_add_roundtrip (tbl : String) (col : Column) (s : Schema)
    (h : ∀ t ∈ s, t.1 = tbl → ∀ c ∈ t.2, c.name ≠ col.name) :
    drop_column (add_column s tbl col) tbl col.name = s := by
  induction s with
  | nil => rfl
  | cons t rest ih =>
    obtain ⟨tn, tcols⟩ := t
    have hrest : ∀ t ∈ rest, t.1 = tbl → ∀ c ∈ t.2, c.name ≠ col.name :=
      fun t ht => h t (List.mem_cons_of_mem _ ht)
    have htail := ih hrest
    by_cases htn : tn = tbl
    · subst htn
      have hcols : tcols.filter (fun c => c.name != col.name) = tcols := by
        refine List.filter_eq_self.mpr (fun c hc => ?_)
        simpa using h (tn, tcols) (List.mem_cons_self _ _) rfl c hc
      simp only [add_column, drop_column, List.map_cons] at htail ⊢
      simp [htail, hcols, List.filter_append]
    · simp only [add_column, drop_column, List.map_cons] at htail ⊢
      simp [htn, htail]

/-- Claim C8: for both migration scripts, `downgrade` exactly undoes
`upgrade` (which adds one nullable JSON column), so upgrade followed by
downgrade is the identity on any schema that does not already use the
added column name in the altered table. -/
theorem C8_migrations_roundtrip (s : Schema)
    (h1 : ∀ t ∈ s, t.1 = "window_event" → ∀ c ∈ t.2, c.name ≠ "state")
    (h2 : ∀ t ∈ s, t.1 = "recording" → ∀ c ∈ t.2, c.name ≠ "config") :
    downgrade_57d78d23087a (upgrade_57d78d23087a s) = s
    ∧ downgrade_8495f5471e23 (upgrade_8495f5471e23 s) = s :=
  ⟨drop_add_roundtrip "window_event" ⟨"state", "JSON", true⟩ s h1,
   drop_add_roundtrip "recording" ⟨"config", "JSON", true⟩ s h2⟩

/-- Witness for C8 on a concrete two-table schema. -/
theorem C8_migrations_roundtrip_witness :
    downgrade_57d78d23087a (upgrade_57d78d23087a
        [("window_event", [⟨"id", "INTEGER", false⟩]), ("recording", [])]) =
      [("window_event", [⟨"id", "INTEGER", false⟩]), ("recording", [])]
    ∧ downgrade_8495f5471e23 (upgrade_8495f5471e23
        [("window_event", [⟨"id", "INTEGER", false⟩]), ("recording", [])]) =
      [("window_event", [⟨"id", "INTEGER", false⟩]), ("recording", [])] :=
  C8_migrations_roundtrip
    [("window_event", [⟨"id", "INTEGER", false⟩]), ("recording", [])]
    (by decide) (by decide)

/-- Claim C9: with scrubbing enabled, the recording fetched for scrubbing
is always `get_recording_by_id(2)`, independent of the argument passed to
`scrub_recording` — including whatever the `/scrub/` route forwards after
its own existence check. -/
theorem C9_scrub_ignores_argument {α β : Type} (recs : List RecordingR)
    (a : α) (b : β) :
    scrub_recording_target true recs a = get_recording_by_id recs 2
    ∧ scrub_recording_target true recs a = scrub_recording_target true recs b
    ∧ (∀ rid : Int, ∀ r, get_recording_by_id recs rid = some r →
        api_scrub_recording true recs rid = get_recording_by_id recs 2) := by
  refine ⟨rfl, rfl, fun rid r hr => ?_⟩
  rw [api_scrub_recording, hr]
  rfl

/-- Witness for C9: two stored recordings; asking the route to scrub
recording 5 still targets recording 2. -/
theorem C9_scrub_ignores_argument_witness :
    api_scrub_recording true [⟨2, "two"⟩, ⟨5, "five"⟩] 5 =
      get_recording_by_id [⟨2, "two"⟩, ⟨5, "five"⟩] 2 :=
  (C9_scrub_ignores_argument [⟨2, "two"⟩, ⟨5, "five"⟩] (0 : Nat) (1 : Nat)).2.2
    5 ⟨5, "five"⟩ (by decide)

/-- Claim C10: `_insert` raises exactly when some event-data key is not a
column name; under the all-keys-are-columns precondition the assertion
never fires, every provided value is placed into the row, and the
remaining columns are filled with `None`. -/
theorem C10_insert_assertion (columns : List String)
    (data : List (String × String)) (hnd : (data.map Prod.fst).Nodup) :
    (assertFires columns data = true ↔ ∃ kv ∈ data, kv.1 ∉ columns)
    ∧ (∀ committed buffer, _insert columns data committed buffer = none ↔
        assertFires columns data = true)
    ∧ ((∀ kv ∈ data, kv.1 ∈ columns) →
        assertFires columns data = false
        ∧ (∀ kv ∈ data, (kv.1, some kv.2) ∈ mkRow columns data)
        ∧ (∀ c ∈ columns, c ∉ data.map Prod.fst →
            (c, (none : Option String)) ∈ mkRow columns data)) := by
  have hiff : assertFires columns data = true ↔ ∃ kv ∈ data, kv.1 ∉ columns := by
    constructor
    · intro htrue
      rw [assertFires, Bool.not_eq_true'] at htrue
      rcases List.exists_mem_of_length_pos (List.length_pos.mpr
        (fun hnil => by rw [List.isEmpty_iff.mpr hnil] at htrue; cases htrue))
        with ⟨kv, hkv⟩
      rw [leftover, List.mem_filter] at hkv
      refine ⟨kv, hkv.1, fun hmem => ?_⟩
      have := hkv.2
      simp [hmem] at this
    · rintro ⟨kv, hkv, hnc⟩
      have hmem : kv ∈ leftover columns data := by
        rw [leftover, List.mem_filter]
        exact ⟨hkv, by simpa using hnc⟩
      rw [assertFires, Bool.not_eq_true']
      rw [Bool.eq_false_iff]
      intro hemp
      rw [List.isEmpty_iff] at hemp
      rw [hemp] at hmem
      cases hmem
  refine ⟨hiff, fun committed buffer => ?_, fun hall => ?_⟩
  · cases buffer with
    | none =>
      constructor
      · intro hnone
        by_contra hfalse
        rw [Bool.not_eq_true] at hfalse
        simp [_insert, hfalse] at hnone
      · intro htrue
        simp [_insert, htrue]
    | some buf =>
      constructor
      · intro hnone
        by_contra hfalse
        rw [Bool.not_eq_true] at hfalse
        simp only [_insert, hfalse, Bool.false_eq_true, if_false] at hnone
        split at hnone <;> cases hnone
      · intro htrue
        simp [_insert, htrue]
  · have hfires : assertFires columns data = false := by
      rw [Bool.eq_false_iff]
      intro htrue
      rcases hiff.mp htrue with ⟨kv, hkv, hnc⟩
      exact hnc (hall kv hkv)
    refine ⟨hfires, fun kv hkv => ?_, fun c hc hcn => ?_⟩
    · have hlook := lookup_of_mem_nodup data kv hnd hkv
      have : (kv.1, data.lookup kv.1) ∈ mkRow columns data :=
        List.mem_map_of_mem _ (hall kv hkv)
      rw [hlook] at this
      exact this
    · have hlook := lookup_eq_none_of_not_mem data c hcn
      have : (c, data.lookup c) ∈ mkRow columns data :=
        List.mem_map_of_mem _ hc
      rw [hlook] at this
      exact this

/-- Witness for C10 with columns a, b and event data for a alone. -/
theorem C10_insert_assertion_witness :
    assertFires ["a", "b"] [("a", "x")] = false
    ∧ ("a", some "x") ∈ mkRow ["a", "b"] [("a", "x")]
    ∧ ("b", (none : Option String)) ∈ mkRow ["a", "b"] [("a", "x")] := by
  have h := (C10_insert_assertion ["a", "b"] [("a", "x")] (by decide)).2.2
    (by decide)
  exact ⟨h.1, h.2.1 ("a", "x") (by decide), h.2.2 "b" (by decide) (by decide)⟩

/-- Helper: Python index `-1` on a list ending in two known elements. -/
theorem pyIndex_concat2_neg1 {γ : Type} (l : List γ) (a b : γ) :
    pyIndex (l ++ [a, b]) (-1) = some b := by
  have hlen : (l ++ [a, b]).length = l.length + 2 := by simp
  rw [pyIndex, if_neg (by decide), if_pos (by rw [hlen]; push_cast; omega)]
  have hidx : (((l ++ [a, b]).length : Int) + (-1)).toNat = l.length + 1 := by
    rw [hlen]; omega
  rw [hidx, List.get?_append_right (by omega)]
  simp

/-- Helper: Python index `-2` on a list ending in two known elements. -/
theorem pyIndex_concat2_neg2 {γ : Type} (l : List γ) (a b : γ) :
    pyIndex (l ++ [a, b]) (-2) = some a := by
  have hlen : (l ++ [a, b]).length = l.length + 2 := by simp
  rw [pyIndex, if_neg (by decide), if_pos (by rw [hlen]; push_cast; omega)]
  have hidx : (((l ++ [a, b]).length : Int) + (-2)).toNat = l.length := by
    rw [hlen]; omega
  rw [hidx, List.get?_append_right (by omega)]
  simp

/-- Claim C6: whenever the last event's canonical key char is "c" and the
second-to-last event's canonical key name is "ctrl", the Ctrl+C branch
fires first and removes exactly those two trailing events; the configured
stop sequences are never consulted (the result is the same for every
configuration). -/
theorem C6_ctrl_c_checked_first (seqs : List (List String))
    (rest : List ActionEvent) (e2 e1 : ActionEvent)
    (h1 : e1.canonical_key_char = some "c")
    (h2 : e2.canonical_key_name = some "ctrl") :
    filter_stop_sequences seqs (rest ++ [e2, e1]) = some rest := by
  have hctrl : isCtrlC (rest ++ [e2, e1]) = true := by
    rw [isCtrlC, if_pos (by simp)]
    rw [pyIndex_concat2_neg1, pyIndex_concat2_neg2]
    simp [h1, h2]
  rw [filter_stop_sequences, if_pos hctrl]
  have hd1 : (rest ++ [e2, e1]).dropLast = rest ++ [e2] := by
    rw [show rest ++ [e2, e1] = (rest ++ [e2]) ++ [e1] by simp]
    exact List.dropLast_concat
  have hne1 : (rest ++ [e2, e1]).isEmpty = false := by
    simp [List.isEmpty_iff]
  have hne2 : (rest ++ [e2]).isEmpty = false := by
    simp [List.isEmpty_iff]
  simp [popN, pop1, hne1, hne2, hd1, List.dropLast_concat]

/-- Witness for C6: a three-event recording ending in Ctrl+C, with a
configured stop sequence that would also match. -/
theorem C6_ctrl_c_checked_first_witness :
    filter_stop_sequences [["c"]]
      ([⟨"press", some "z", none⟩] ++
        [⟨"press", none, some "ctrl"⟩, ⟨"press", some "c", none⟩]) =
      some [⟨"press", some "z", none⟩] :=
  C6_ctrl_c_checked_first [["c"]] [⟨"press", some "z", none⟩]
    ⟨"press", none, some "ctrl"⟩ ⟨"press", some "c", none⟩ rfl rfl

/-- Helper: a non-negative in-range Python index hits the list. -/
theorem pyIndex_nonneg_lt {γ : Type} (l : List γ) (i : Int) (h0 : 0 ≤ i)
    (hlt : i < (l.length : Int)) : ∃ t, pyIndex l i = some t := by
  rw [pyIndex, if_pos h0]
  have hi : i.toNat < l.length := by omega
  exact ⟨l.get ⟨i.toNat, hi⟩, List.get?_eq_get hi⟩

/-- Helper: one unfolding step of the inner scan when the current sequence
index is in range. -/
theorem scanSeq_cons_eq (seq : List String) (e : ActionEvent)
    (rest : List ActionEvent) (idx : Int) (num : Nat) (target : String)
    (hpy : pyIndex seq idx = some target) :
    scanSeq seq (e :: rest) idx num =
      if matchesAt e target then scanSeq seq rest (idx - 1) (num + 1)
      else if consumableRelease e seq then scanSeq seq rest idx (num + 1)
      else some (idx, num) := by
  rw [scanSeq, hpy]

/-- Helper: the starting value of `num_to_remove` only shifts a scan's
count; it affects neither the index trajectory nor where the scan stops. -/
theorem scanSeq_shift (seq : List String) (l : List ActionEvent) (idx : Int)
    (num : Nat) :
    scanSeq seq l idx num =
      (scanSeq seq l idx 0).map (fun p => (p.1, p.2 + num)) := by
  induction l generalizing idx num with
  | nil => simp [scanSeq]
  | cons e rest ih =>
    rw [scanSeq, scanSeq]
    cases hpy : pyIndex seq idx with
    | none => rfl
    | some target =>
      simp only [Nat.zero_add]
      by_cases hm : matchesAt e target = true
      · rw [if_pos hm, if_pos hm, ih (idx - 1) (num + 1), ih (idx - 1) 1]
        cases scanSeq seq rest (idx - 1) 0 with
        | none => rfl
        | some p =>
          obtain ⟨pa, pb⟩ := p
          simp only [Option.map_some', Option.some.injEq, Prod.mk.injEq]
          exact ⟨trivial, by omega⟩
      · rw [if_neg hm, if_neg hm]
        by_cases hr : consumableRelease e seq = true
        · rw [if_pos hr, if_pos hr, ih idx (num + 1), ih idx 1]
          cases scanSeq seq rest idx 0 with
          | none => rfl
          | some p =>
            obtain ⟨pa, pb⟩ := p
            simp only [Option.map_some', Option.some.injEq, Prod.mk.injEq]
            exact ⟨trivial, by omega⟩
        · rw [if_neg hr, if_neg hr]
          simp

/-- Helper: popping `n ≤ len` times from the tail keeps the first
`len - n` elements. -/
theorem popN_of_le {γ : Type} : ∀ (n : Nat) (l : List γ), n ≤ l.length →
    popN n l = some (l.take (l.length - n))
  | 0, l, _ => by simp [popN]
  | n + 1, l, h => by
    have hne : l.isEmpty = false := by
      rw [Bool.eq_false_iff]
      intro he
      rw [List.isEmpty_iff] at he
      subst he
      simp at h
    rw [popN, pop1, if_neg (by simp [hne]), Option.some_bind]
    rw [popN_of_le n l.dropLast (by rw [List.length_dropLast]; omega)]
    rw [List.length_dropLast, List.dropLast_eq_take, List.take_take]
    congr 2
    rw [min_eq_left (by omega)]
    omega

/-- Helper: if a candidate's scan never has index `-1`, the scan terminates
without `IndexError` and its final index is not `-1`. -/
theorem scanSeq_of_not_hits (seq : List String) :
    ∀ (l : List ActionEvent) (idx : Int) (num : Nat), -1 ≤ idx →
    idx < (seq.length : Int) → scanHitsNeg1 seq l idx = false →
    ∃ idx2 num2, scanSeq seq l idx num = some (idx2, num2) ∧ idx2 ≠ -1 ∧
      -1 ≤ idx2 ∧ idx2 < (seq.length : Int)
  | [], idx, num, h1, h2, hhit => by
    rw [scanHitsNeg1] at hhit
    have : idx ≠ -1 := by simpa using hhit
    exact ⟨idx, num, rfl, this, h1, h2⟩
  | e :: rest, idx, num, h1, h2, hhit => by
    rw [scanHitsNeg1, Bool.or_eq_false_iff] at hhit
    have hne : idx ≠ -1 := by simpa using hhit.1
    have h0 : 0 ≤ idx := by omega
    obtain ⟨target, hpy⟩ := pyIndex_nonneg_lt seq idx h0 h2
    have hrest := hhit.2
    simp only [hpy] at hrest
    rw [scanSeq_cons_eq seq e rest idx num target hpy]
    by_cases hm : matchesAt e target = true
    · rw [if_pos hm]
      rw [if_pos hm] at hrest
      exact scanSeq_of_not_hits seq rest (idx - 1) (num + 1) (by omega)
        (by omega) hrest
    · rw [if_neg hm]
      rw [if_neg hm] at hrest
      by_cases hr : consumableRelease e seq = true
      · rw [if_pos hr]
        rw [if_pos hr] at hrest
        exact scanSeq_of_not_hits seq rest idx (num + 1) h1 h2 hrest
      · rw [if_neg hr]
        exact ⟨idx, num, rfl, hne, h1, h2⟩

/-- Claim C2: if the Ctrl+C check does not fire and no candidate's match
index ever reaches `-1` during its backward scan, `filter_stop_sequences`
leaves the event list exactly as it was. -/
theorem C2_no_completion_no_change (seqs : List (List String))
    (events : List ActionEvent) (hc : isCtrlC events = false)
    (h : ∀ seq ∈ seqs,
      scanHitsNeg1 seq events.reverse ((seq.length : Int) - 1) = false) :
    filter_stop_sequences seqs events = some events := by
  have houter : ∀ (ss : List (List String)), (∀ seq ∈ ss,
      scanHitsNeg1 seq events.reverse ((seq.length : Int) - 1) = false) →
      ∀ num : Nat, ∃ n, outerScan events ss num = some (none, n) := by
    intro ss
    induction ss with
    | nil => exact fun _ num => ⟨num, rfl⟩
    | cons seq rest ih =>
      intro hss num
      have hseq := hss seq (List.mem_cons_self _ _)
      obtain ⟨idx2, num2, hp, hne, -, -⟩ := scanSeq_of_not_hits seq
        events.reverse ((seq.length : Int) - 1) num (by omega) (by omega) hseq
      obtain ⟨n, hn⟩ := ih (fun s hs => hss s (List.mem_cons_of_mem _ hs)) num2
      have hp' : scanOf seq events num = some (idx2, num2) := by
        rw [scanOf]; exact hp
      refine ⟨n, ?_⟩
      rw [outerScan]
      simp only [hp']
      rw [if_neg hne, hn]
      rfl
  obtain ⟨n, hn⟩ := houter seqs h 0
  rw [filter_stop_sequences, if_neg (by simp [hc]), hn]

/-- Witness for C2: one candidate sequence, one press event matching
nothing. -/
theorem C2_no_completion_no_change_witness :
    filter_stop_sequences [["a", "b"]] [⟨"press", some "z", none⟩] =
      some [⟨"press", some "z", none⟩] :=
  C2_no_completion_no_change [["a", "b"]] [⟨"press", some "z", none⟩]
    (by decide) (by decide)

/-- Claim C3: candidates are scanned in configuration order and scanning
stops at the first candidate whose match completes (final index `-1`):
when every earlier candidate's scan terminates without completing and
candidate `i` completes, the removed occurrence is candidate `i`'s. -/
theorem C3_first_completed_candidate_wins (seqs : List (List String))
    (events : List ActionEvent) (i : Nat) (seqI : List String)
    (hc : isCtrlC events = false)
    (hi : seqs.get? i = some seqI)
    (hbefore : ∀ j, j < i → ∀ seqJ, seqs.get? j = some seqJ →
      ∃ idx n, scanOf seqJ events 0 = some (idx, n) ∧ idx ≠ -1)
    (hcomp : ∃ n, scanOf seqI events 0 = some (-1, n)) :
    ∃ num, outerScan events seqs 0 = some (some i, num)
      ∧ filter_stop_sequences seqs events = popN num events := by
  have key : ∀ (k : Nat) (ss : List (List String)) (num : Nat)
      (sI : List String), ss.get? k = some sI →
      (∀ j, j < k → ∀ seqJ, ss.get? j = some seqJ →
        ∃ idx n, scanOf seqJ events 0 = some (idx, n) ∧ idx ≠ -1) →
      (∃ n, scanOf sI events 0 = some (-1, n)) →
      ∃ num2, outerScan events ss num = some (some k, num2) := by
    intro k
    induction k with
    | zero =>
      intro ss num sI h0 _ hcomp0
      cases ss with
      | nil => cases h0
      | cons s rest =>
        rw [List.get?_cons_zero] at h0
        injection h0 with h0
        obtain ⟨n, hn⟩ := hcomp0
        rw [← h0] at hn
        have hshift : scanOf s events num = some (-1, n + num) := by
          rw [scanOf, scanSeq_shift]
          rw [scanOf] at hn
          rw [hn]
          rfl
        refine ⟨n + num, ?_⟩
        rw [outerScan]
        simp [hshift]
    | succ k ih =>
      intro ss num sI hsk hbef hcompI
      cases ss with
      | nil => cases hsk
      | cons s rest =>
        rw [List.get?_cons_succ] at hsk
        obtain ⟨idx0, n0, hs0, hne0⟩ := hbef 0 (Nat.succ_pos k) s rfl
        have hshift : scanOf s events num = some (idx0, n0 + num) := by
          rw [scanOf, scanSeq_shift]
          rw [scanOf] at hs0
          rw [hs0]
          rfl
        obtain ⟨num2, hrec⟩ := ih rest (n0 + num) sI hsk
          (fun j hj sJ hsJ => hbef (j + 1) (Nat.succ_lt_succ hj) sJ
            (by rw [List.get?_cons_succ]; exact hsJ))
          hcompI
        refine ⟨num2, ?_⟩
        rw [outerScan]
        simp only [hshift]
        rw [if_neg hne0, hrec]
        rfl
  obtain ⟨num, hn⟩ := key i seqs 0 seqI hi hbefore hcomp
  refine ⟨num, hn, ?_⟩
  rw [filter_stop_sequences, if_neg (by simp [hc]), hn]

/-- Witness for C3: the first candidate scans without completing, the
second completes and is the one removed. -/
theorem C3_first_completed_candidate_wins_witness :
    ∃ num, outerScan [⟨"press", some "b", none⟩] [["q"], ["b"]] 0 =
        some (some 1, num)
      ∧ filter_stop_sequences [["q"], ["b"]] [⟨"press", some "b", none⟩] =
        popN num [⟨"press", some "b", none⟩] :=
  C3_first_completed_candidate_wins [["q"], ["b"]]
    [⟨"press", some "b", none⟩] 1 ["b"] (by decide) rfl
    (by
      intro j hj seqJ hsJ
      have hj0 : j = 0 := by omega
      subst hj0
      rw [List.get?_cons_zero] at hsJ
      injection hsJ with hsJ
      subst hsJ
      exact ⟨0, 0, by decide, by decide⟩)
    ⟨1, by decide⟩

/-- Counterexample to claim C4 as stated: with candidate sequence b and
events release b, press b, press b, the two presses drive the match index
from 0 to -1 (completion) and on to -2 by Python wraparound; the trailing
release b — whose key appears in the sequence — is then not counted: the
evaluation of the sequence element at index -2 raises `IndexError` (the
call returns `none`), so a key-member release does terminate the scan. -/
theorem C4_counterexample :
    consumableRelease ⟨"release", some "b", none⟩ ["b"] = true
    ∧ scanSeq ["b"] [⟨"release", some "b", none⟩] (-2) 2 = none
    ∧ scanOf ["b"] [⟨"release", some "b", none⟩, ⟨"press", some "b", none⟩,
        ⟨"press", some "b", none⟩] 0 = none
    ∧ filter_stop_sequences [["b"]] [⟨"release", some "b", none⟩,
        ⟨"press", some "b", none⟩, ⟨"press", some "b", none⟩] = none := by
  decide

/-- Claim C4 as amended: inside a candidate's backward scan, whenever the
current match index still resolves to a sequence element under Python
indexing, any release event whose key appears anywhere in the candidate
sequence is consumed (counted in `num_to_remove`, index unchanged)
regardless of the current match position, and an event that is neither a
position-matching press nor such a release stops the scan; when the index
no longer resolves (it wrapped past the front of the sequence after an
over-completed match), the scan instead aborts the whole call with
`IndexError` at the next event, whatever that event is. -/
theorem C4_release_consumed_by_membership (seq : List String)
    (target : String) (idx idx2 : Int) (num : Nat) (e1 e2 e3 : ActionEvent)
    (rest1 rest2 rest3 : List ActionEvent)
    (hpy : pyIndex seq idx = some target)
    (h1 : consumableRelease e1 seq = true)
    (h2 : matchesAt e2 target = false)
    (h3 : consumableRelease e2 seq = false)
    (hpy2 : pyIndex seq idx2 = none) :
    scanSeq seq (e1 :: rest1) idx num = scanSeq seq rest1 idx (num + 1)
    ∧ scanSeq seq (e2 :: rest2) idx num = some (idx, num)
    ∧ scanSeq seq (e3 :: rest3) idx2 num = none := by
  have hname : e1.name = "release" := by
    rw [consumableRelease, Bool.and_eq_true] at h1
    exact beq_iff_eq.mp h1.1
  have hm1 : matchesAt e1 target = false := by
    rw [matchesAt, hname]
    simp
  refine ⟨by rw [scanSeq_cons_eq seq e1 rest1 idx num target hpy,
      if_neg (by simp [hm1]), if_pos h1],
    by rw [scanSeq_cons_eq seq e2 rest2 idx num target hpy,
      if_neg (by simp [h2]), if_neg (by simp [h3])], ?_⟩
  rw [scanSeq, hpy2]

/-- Witness for the amended C4: candidate sequence a b, current position on
b; a release of a (key membership only) is consumed, a press of z stops
the scan, and at unresolvable index -3 the scan aborts. -/
theorem C4_release_consumed_by_membership_witness :
    scanSeq ["a", "b"] [⟨"release", some "a", none⟩] 1 0 =
      scanSeq ["a", "b"] [] 1 (0 + 1)
    ∧ scanSeq ["a", "b"] [⟨"press", some "z", none⟩] 1 0 = some (1, 0)
    ∧ scanSeq ["a", "b"] [⟨"release", some "a", none⟩] (-3) 0 = none :=
  C4_release_consumed_by_membership ["a", "b"] "b" 1 (-3) 0
    ⟨"release", some "a", none⟩ ⟨"press", some "z", none⟩
    ⟨"release", some "a", none⟩ [] [] []
    (by decide) (by decide) (by decide) (by decide) (by decide)

/-- Counterexample to claim C5 as stated: with candidate sequence b and
events press b, press b, the backward scan matches the last press at
position 0 (index reaches -1, the whole sequence is consumed); the claim
then requires the next press b — which matches only the already-consumed
position — not to be counted, i.e. the step from index -1 should stop with
`some (-1, 1)`.  Instead Python indexing resolves index -1 to the last
element again, the press is counted, and the index moves to -2, so the
completed match is even lost (`filter_stop_sequences` removes nothing). -/
theorem C5_counterexample :
    scanSeq ["b"] [⟨"press", some "b", none⟩] (-1) 1 =
      scanSeq ["b"] [] (-1 - 1) (1 + 1)
    ∧ scanSeq ["b"] [⟨"press", some "b", none⟩] (-1) 1 ≠ some (-1, 1)
    ∧ scanOf ["b"] [⟨"press", some "b", none⟩, ⟨"press", some "b", none⟩] 0 =
        some (-2, 2)
    ∧ filter_stop_sequences [["b"]]
        [⟨"press", some "b", none⟩, ⟨"press", some "b", none⟩] =
        some [⟨"press", some "b", none⟩, ⟨"press", some "b", none⟩] := by
  decide

/-- Claim C5 as amended: inside a candidate's backward scan, a press event
advances the match (index decremented, count incremented) exactly when its
canonical key char or name equals the sequence element that the current
index resolves to under Python indexing — strict reverse order from the
last element to the first while the match is incomplete, but after
completion index -1 wraps around to the tail of the sequence, so a press
matching the wrapped position is still counted; a press matching no
resolved current element — even one whose key occurs elsewhere in the
sequence — stops the scan and is not counted. -/
theorem C5_press_advances_iff_current_position (seq : List String)
    (target : String) (idx : Int) (num : Nat) (e1 e2 : ActionEvent)
    (rest1 rest2 : List ActionEvent)
    (hpy : pyIndex seq idx = some target)
    (h1n : e1.name = "press")
    (h1 : e1.canonical_key_char = some target
      ∨ e1.canonical_key_name = some target)
    (h2n : e2.name = "press")
    (h2 : e2.canonical_key_char ≠ some target
      ∧ e2.canonical_key_name ≠ some target) :
    scanSeq seq (e1 :: rest1) idx num = scanSeq seq rest1 (idx - 1) (num + 1)
    ∧ scanSeq seq (e2 :: rest2) idx num = some (idx, num) := by
  have hm1 : matchesAt e1 target = true := by
    rw [matchesAt, h1n]
    rcases h1 with h | h <;> simp [h]
  have hm2 : matchesAt e2 target = false := by
    rw [matchesAt]
    simp [h2.1, h2.2]
  have hr2 : consumableRelease e2 seq = false := by
    rw [consumableRelease, h2n]
    simp
  exact ⟨by rw [scanSeq_cons_eq seq e1 rest1 idx num target hpy, if_pos hm1],
    by rw [scanSeq_cons_eq seq e2 rest2 idx num target hpy,
      if_neg (by simp [hm2]), if_neg (by simp [hr2])]⟩

/-- Witness for C5: candidate sequence a b, current position on b; a press
of b advances, while a press of a — a key of the sequence at the wrong
position — stops the scan. -/
theorem C5_press_advances_iff_current_position_witness :
    scanSeq ["a", "b"] [⟨"press", some "b", none⟩] 1 0 =
      scanSeq ["a", "b"] [] (1 - 1) (0 + 1)
    ∧ scanSeq ["a", "b"] [⟨"press", some "a", none⟩] 1 0 = some (1, 0) :=
  C5_press_advances_iff_current_position ["a", "b"] "b" 1 0
    ⟨"press", some "b", none⟩ ⟨"press", some "a", none⟩ [] []
    (by decide) rfl (Or.inl rfl) rfl (by decide)

/-- Counterexample to claim C1 as stated: with stop sequences x b and b,
and events press p, press b, the winning candidate b matches a single
event, yet two events are popped, because `num_to_remove` kept the event
counted during the earlier, non-winning scan of x b.  The claim predicts
the result press p; the code returns the empty list. -/
theorem C1_counterexample :
    filter_stop_sequences [["x", "b"], ["b"]]
        [⟨"press", some "p", none⟩, ⟨"press", some "b", none⟩] = some []
    ∧ scanOf ["b"] [⟨"press", some "p", none⟩, ⟨"press", some "b", none⟩] 0 =
        some (-1, 1)
    ∧ popN 1 [(⟨"press", some "p", none⟩ : ActionEvent),
        ⟨"press", some "b", none⟩] = some [⟨"press", some "p", none⟩]
    ∧ some ([] : List ActionEvent) ≠
        some [(⟨"press", some "p", none⟩ : ActionEvent)] := by
  decide

/-- Claim C1 as amended: when a configured stop sequence completes (and the
Ctrl+C check did not fire), the number of events popped from the tail
equals the cumulative `num_to_remove` accrued across the scans of all
candidate sequences up to and including the winning one — not just the
events matched while scanning the winning sequence. -/
theorem C1_pops_cumulative_count (seqs : List (List String))
    (events : List ActionEvent) (i : Nat) (num : Nat)
    (hc : isCtrlC events = false)
    (houter : outerScan events seqs 0 = some (some i, num))
    (hnum : num ≤ events.length) :
    filter_stop_sequences seqs events =
      some (events.take (events.length - num)) := by
  rw [filter_stop_sequences, if_neg (by simp [hc]), houter]
  exact popN_of_le num events hnum

/-- Witness for the amended C1: a single candidate completes after one
match, and exactly that cumulative count of events is popped. -/
theorem C1_pops_cumulative_count_witness :
    filter_stop_sequences [["b"]] [⟨"press", some "b", none⟩] =
      some (([⟨"press", some "b", none⟩] : List ActionEvent).take
        (([⟨"press", some "b", none⟩] : List ActionEvent).length - 1)) :=
  C1_pops_cumulative_count [["b"]] [⟨"press", some "b", none⟩] 0 1
    (by decide) (by decide) (by decide)

end OpenAdapt
